import Mathlib

/-!
Verification of the planet-client-python orders workflow against its
specification.  The progress-reporting module (`planet/reporting.py`) is
embedded directly from source.  The orders client itself (gateway, state
poller, download orchestrator) is exercised only through its CLI tests in
the provided sources, so those components are modelled from the spec, as
noted in the doc comment of each such definition.
-/

namespace Planet

/-! ## Embedding of planet/reporting.py -/

/-- Python truthiness of an optional string argument: `None` and the empty
string are falsy (`if state:` in `StateBar.update`). -/
def truthyStr : Option String → Bool
  | none => false
  | some s => if s = "" then false else true

/-- Python `x or d` for an optional string `x`: yields `d` when `x` is
`None` or empty (`state or ''` in `StateBar.__init__`). -/
def pyOrStr (x : Option String) (d : String) : String :=
  match x with
  | none => d
  | some s => if s = "" then d else s

/-- Python `x or d` for an optional integer `x`: yields `d` when `x` is
`None` or `0` (`unit or 1024*1024` in `FileDownloadBar.__init__`). -/
def pyOrInt (x : Option Int) (d : Int) : Int :=
  match x with
  | none => d
  | some n => if n = 0 then d else n

/-- The displayed part of a tqdm bar that `StateBar` manipulates: the
description string and the two-element postfix list
`["state", self.state]` (modelled as fields `pfix0`, `pfix1`). -/
structure TqdmStateDisplay where
  desc : String
  pfix0 : String
  pfix1 : String
deriving Repr, DecidableEq

/-- `StateBar` from planet/reporting.py: stored `state` and `order_id`
strings plus the tqdm bar display opened by `open_bar`. -/
structure StateBar where
  state : String
  order_id : String
  bar : TqdmStateDisplay
deriving Repr, DecidableEq

/-- The `desc` property: `f'order {self.order_id}'`. -/
def StateBar.desc (sb : StateBar) : String :=
  "order " ++ sb.order_id

/-- `StateBar.__init__` followed by `open_bar`: stores `state or ''` and
`order_id or ''` and opens the bar with `desc=self.desc`,
`postfix=["state", self.state]`. -/
def StateBar.opened (order_id state : Option String) : StateBar :=
  let st := pyOrStr state ""
  let oid := pyOrStr order_id ""
  { state := st,
    order_id := oid,
    bar := { desc := "order " ++ oid, pfix0 := "state", pfix1 := st } }

/-- `StateBar.update`: when `state` is truthy, store it and write it into
the bar's postfix slot; when `order_id` is truthy, store it and reset the
bar's description from the `desc` property; then refresh (a pure display
action, no state change). -/
def StateBar.update (sb : StateBar) (state : Option String) (order_id : Option String) : StateBar :=
  let sb :=
    if truthyStr state then
      let st := state.getD ""
      { sb with state := st, bar := { sb.bar with pfix1 := st } }
    else sb
  if truthyStr order_id then
    let oid := order_id.getD ""
    let sb := { sb with order_id := oid }
    { sb with bar := { sb.bar with desc := sb.desc } }
  else sb

/-- `FileDownloadBar` from planet/reporting.py: filename, size in bytes,
and the unit divisor used to scale reported iteration counts. -/
structure FileDownloadBar where
  filename : String
  size : Int
  unit : Int
deriving Repr, DecidableEq

/-- `FileDownloadBar.__init__`: stores the filename and size and
`self.unit = unit or 1024*1024`. -/
def FileDownloadBar.make (filename : String) (size : Int) (unit : Option Int) : FileDownloadBar :=
  { filename := filename, size := size, unit := pyOrInt unit (1024 * 1024) }

/-! ## Order Gateway: pagination and limit (modelled from the spec) -/

/-- One page of a paginated orders-list response: the page's order records
(opaque JSON records modelled as strings) and the optional next-page link. -/
structure Page where
  orders : List String
  next : Option String
deriving Repr, DecidableEq

/-- Whether a service page sequence is well formed: each fetched response
except the last carries a next-page link, and the last carries none. -/
def chained : List Page → Bool
  | [] => false
  | [p] => p.next.isNone
  | p :: q :: rest => p.next.isSome && chained (q :: rest)

/-- Concatenation of all pages' order records, in service order. -/
def allOrders : List Page → List String
  | [] => []
  | p :: rest => p.orders ++ allOrders rest

/-- Modelled from the spec: the Order Gateway `list` operation is not among
the provided sources (only its CLI tests are).  Per the spec it "paginates
transparently by following a next-page link embedded in each response;
terminates when no next link is present".  `listRun` consumes the
service's page sequence: it fetches the head page, yields its order
records, and follows the next link when one is present.  Returns the
yielded records and the number of page fetches performed. -/
def listRun : List Page → List String × Nat
  | [] => ([], 0)
  | p :: rest =>
    match p.next with
    | none => (p.orders, 1)
    | some _ =>
      let res := listRun rest
      (p.orders ++ res.1, res.2 + 1)

/-- Modelled from the spec: the limited variant of the list generator —
it "terminates when no next link is present or when `limit` items have
been yielded".  `b` is the number of records still wanted. -/
def listRunBounded : Nat → List Page → List String
  | _, [] => []
  | b, p :: rest =>
    if b ≤ p.orders.length then p.orders.take b
    else
      match p.next with
      | none => p.orders
      | some _ => p.orders ++ listRunBounded (b - p.orders.length) rest

/-- Modelled from the spec: the `list(state_filter?, limit?)` operation,
where "limit of 0 or unset means unbounded". -/
def ordersList (limit : Option Nat) (ps : List Page) : List String :=
  match limit with
  | none => (listRun ps).1
  | some 0 => (listRun ps).1
  | some b => listRunBounded b ps

/-! ## State Poller (modelled from the spec) -/

/-- Modelled from the spec: the client "treats `success`, `failed`,
`partial`, `cancelled` as terminal and everything else as non-terminal". -/
def isTerminal (s : String) : Bool :=
  s == "success" || s == "failed" || s == "partial" || s == "cancelled"

/-- Outcome of the wait-for-terminal-state operation. -/
inductive PollOutcome where
  | reached (state : String)
  | attemptsExceeded (bound : Nat)
  | exhausted
deriving Repr, DecidableEq

/-- Modelled from the spec: the State Poller is not among the provided
sources (only its CLI tests are).  Per the spec it immediately fetches the
current state, then while the state is non-terminal it sleeps and
re-fetches; each fetch is one attempt and reports the fetched state to the
progress sink; if attempts reach a nonzero `maxAttempts` bound before a
terminal state, it fails with `AttemptsExceededError` carrying the bound.
`fetches` is the sequence of states the service returns on successive
fetches and `made` counts attempts already performed; the result is the
list of states reported to the sink, in order, paired with the outcome. -/
def pollFrom (maxAttempts : Nat) : List String → Nat → List String × PollOutcome
  | [], _ => ([], .exhausted)
  | s :: rest, made =>
    if isTerminal s then ([s], .reached s)
    else if maxAttempts ≠ 0 ∧ maxAttempts ≤ made + 1 then ([s], .attemptsExceeded maxAttempts)
    else
      let res := pollFrom maxAttempts rest (made + 1)
      (s :: res.1, res.2)

/-- Modelled from the spec: the wait operation, starting with no attempts
made; `maxAttempts = 0` means unlimited. -/
def poll (fetches : List String) (maxAttempts : Nat) : List String × PollOutcome :=
  pollFrom maxAttempts fetches 0

/-! ## Download Orchestrator (modelled from the spec) -/

/-- One result descriptor of a completed order: the artifact's download
URL and its server-declared filename (spec §3: `results` is "an ordered
sequence of `(location: URL, name: string)` download descriptors"). -/
structure OrderResult where
  location : String
  name : String
deriving Repr, DecidableEq

/-- An order record as the download orchestrator sees it. -/
structure Order where
  oid : String
  state : String
  results : List OrderResult
deriving Repr, DecidableEq

/-- Modelled from the spec: an order is usable for download only in the
terminal-success states; `failed`, `cancelled` and every non-terminal
state are rejected. -/
def downloadableState (s : String) : Bool :=
  s == "success" || s == "partial"

/-- The destination directory, modelled as an association list from
filename to file contents. -/
abbrev FS := List (String × String)

/-- Contents of the file named `n`, if present. -/
def fsGet (fs : FS) (n : String) : Option String :=
  match fs with
  | [] => none
  | (k, v) :: rest => if k = n then some v else fsGet rest n

/-- Write (create or replace) the file named `n` with contents `v`. -/
def fsPut (fs : FS) (n v : String) : FS :=
  match fs with
  | [] => [(n, v)]
  | (k, w) :: rest => if k = n then (k, v) :: rest else (k, w) :: fsPut rest n v

/-- Modelled from the spec: the per-artifact loop of the Download
Orchestrator, which is not among the provided sources (only its CLI tests
are).  For each result descriptor in order: derive the output filename
from the server-declared name; if a file of that name exists and
`overwrite` is false, skip the download entirely (a no-op still counted
complete); otherwise fetch the artifact body from its location and write
it to the destination.  `net` maps an artifact URL to the body the service
returns.  Returns the list of local paths (in order), the final
destination contents, and the list of artifact URLs actually requested. -/
def runDownloads (net : String → String) (overwrite : Bool) :
    List OrderResult → FS → List String × FS × List String
  | [], fs => ([], fs, [])
  | r :: rs, fs =>
    if (fsGet fs r.name).isSome ∧ overwrite = false then
      let res := runDownloads net overwrite rs fs
      (r.name :: res.1, res.2.1, res.2.2)
    else
      let res := runDownloads net overwrite rs (fsPut fs r.name (net r.location))
      (r.name :: res.1, res.2.1, r.location :: res.2.2)

/-- Result of the download operation. -/
inductive DlResult where
  | ok (paths : List String)
  | orderNotReady (state : String)
deriving Repr, DecidableEq

/-- Modelled from the spec: the download operation — if the order's state
is not usable for download it fails immediately with `OrderNotReadyError`
naming the actual state, before any artifact request; otherwise it runs
the per-artifact loop. -/
def downloadOrder (net : String → String) (overwrite : Bool) (o : Order) (fs : FS) :
    DlResult × FS × List String :=
  if downloadableState o.state then
    let res := runDownloads net overwrite o.results fs
    (.ok res.1, res.2.1, res.2.2)
  else
    (.orderNotReady o.state, fs, [])

/-! ## Order Gateway: get (modelled from the spec) -/

/-- A service response to a get-order request: HTTP status and JSON body
(the order record, or an error message), kept opaque. -/
structure HttpResponse where
  status : Nat
  body : String
deriving Repr, DecidableEq

/-- Result of the get operation. -/
inductive GetResult where
  | ok (record : String)
  | notFound (message : String)
deriving Repr, DecidableEq

/-- Modelled from the spec: the Order Gateway `get(order_id)` operation is
not among the provided sources (only its CLI tests are).  Per the spec it
"fails with `NotFoundError` if the service returns 404; otherwise returns
the full current order record", surfacing the service's message on
failure. -/
def getOrder (resp : HttpResponse) : GetResult :=
  if resp.status = 404 then .notFound resp.body else .ok resp.body

/-! ## Pagination lemmas -/

/-- Unfolding step: a page without a next link stops the pagination loop. -/
theorem listRun_cons_none {p : Page} (rest : List Page) (hn : p.next = none) :
    listRun (p :: rest) = (p.orders, 1) := by
  simp [listRun, hn]

/-- Unfolding step: a page with a next link is followed by the rest. -/
theorem listRun_cons_some {p : Page} (rest : List Page) {l : String} (hl : p.next = some l) :
    listRun (p :: rest) = (p.orders ++ (listRun rest).1, (listRun rest).2 + 1) := by
  simp [listRun, hl]

/-- Unfolding step for the bounded loop when the limit falls inside the page. -/
theorem listRunBounded_cons_le {b : Nat} {p : Page} (rest : List Page)
    (hb : b ≤ p.orders.length) :
    listRunBounded b (p :: rest) = p.orders.take b := by
  simp [listRunBounded, hb]

/-- Unfolding step for the bounded loop when the page is exhausted and has
no next link. -/
theorem listRunBounded_cons_gt_none {b : Nat} {p : Page} (rest : List Page)
    (hb : ¬b ≤ p.orders.length) (hn : p.next = none) :
    listRunBounded b (p :: rest) = p.orders := by
  simp [listRunBounded, hb, hn]

/-- Unfolding step for the bounded loop when the page is exhausted and has
a next link. -/
theorem listRunBounded_cons_gt_some {b : Nat} {p : Page} (rest : List Page) {l : String}
    (hb : ¬b ≤ p.orders.length) (hl : p.next = some l) :
    listRunBounded b (p :: rest) = p.orders ++ listRunBounded (b - p.orders.length) rest := by
  simp [listRunBounded, hb, hl]

/-- On a well-formed page sequence the pagination loop yields every page's
records in order and fetches every page. -/
theorem listRun_eq_of_chained :
    ∀ ps : List Page, chained ps = true → listRun ps = (allOrders ps, ps.length) := by
  intro ps
  induction ps with
  | nil => intro h; simp [chained] at h
  | cons p rest ih =>
    intro h
    cases rest with
    | nil =>
      have hn : p.next = none := by
        simpa [chained, Option.isNone_iff_eq_none] using h
      rw [listRun_cons_none [] hn]
      simp [allOrders]
    | cons q rest' =>
      simp only [chained, Bool.and_eq_true] at h
      obtain ⟨l, hl⟩ := Option.isSome_iff_exists.mp h.1
      rw [listRun_cons_some (q :: rest') hl, ih h.2]
      simp [allOrders]

/-- On a well-formed page sequence the bounded pagination loop yields
exactly the first `b` of the concatenated records. -/
theorem listRunBounded_eq_take :
    ∀ ps : List Page, chained ps = true → ∀ b : Nat,
      listRunBounded b ps = (allOrders ps).take b := by
  intro ps
  induction ps with
  | nil => intro h; simp [chained] at h
  | cons p rest ih =>
    intro h b
    cases rest with
    | nil =>
      have hn : p.next = none := by
        simpa [chained, Option.isNone_iff_eq_none] using h
      by_cases hb : b ≤ p.orders.length
      · rw [listRunBounded_cons_le [] hb]
        simp [allOrders]
      · have hlen : p.orders.length ≤ b := Nat.le_of_lt (Nat.lt_of_not_le hb)
        rw [listRunBounded_cons_gt_none [] hb hn]
        simp [allOrders, List.take_of_length_le hlen]
    | cons q rest' =>
      simp only [chained, Bool.and_eq_true] at h
      obtain ⟨l, hl⟩ := Option.isSome_iff_exists.mp h.1
      by_cases hb : b ≤ p.orders.length
      · rw [listRunBounded_cons_le (q :: rest') hb]
        simp [allOrders, List.take_append_eq_append_take, Nat.sub_eq_zero_of_le hb]
      · have hlen : p.orders.length ≤ b := Nat.le_of_lt (Nat.lt_of_not_le hb)
        rw [listRunBounded_cons_gt_some (q :: rest') hb hl, ih h.2 (b - p.orders.length)]
        simp [allOrders, List.take_append_eq_append_take, List.take_of_length_le hlen]

/-! ## Poller lemmas -/

/-- Unfolding step: a terminal fetched state ends the wait. -/
theorem pollFrom_cons_terminal {maxA : Nat} {s : String} (rest : List String) (made : Nat)
    (h : isTerminal s = true) :
    pollFrom maxA (s :: rest) made = ([s], .reached s) := by
  simp [pollFrom, h]

/-- Unfolding step: a non-terminal fetched state at the attempt bound
fails with the configured bound. -/
theorem pollFrom_cons_exceeded {maxA : Nat} {s : String} (rest : List String) (made : Nat)
    (h : isTerminal s = false) (h2 : maxA ≠ 0 ∧ maxA ≤ made + 1) :
    pollFrom maxA (s :: rest) made = ([s], .attemptsExceeded maxA) := by
  simp only [pollFrom]
  rw [if_neg (by simp [h]), if_pos h2]

/-- Unfolding step: a non-terminal fetched state below the attempt bound
is reported and polling continues. -/
theorem pollFrom_cons_continue {maxA : Nat} {s : String} (rest : List String) (made : Nat)
    (h : isTerminal s = false) (h2 : ¬(maxA ≠ 0 ∧ maxA ≤ made + 1)) :
    pollFrom maxA (s :: rest) made =
      (s :: (pollFrom maxA rest (made + 1)).1, (pollFrom maxA rest (made + 1)).2) := by
  simp only [pollFrom]
  rw [if_neg (by simp [h]), if_neg h2]

/-- The states the poller reports to the sink are an initial segment of
the service's fetch history: none skipped, none reordered. -/
theorem pollFrom_reports_isPrefix :
    ∀ (maxA : Nat) (fetches : List String) (made : Nat),
      List.IsPrefix (pollFrom maxA fetches made).1 fetches := by
  intro maxA fetches
  induction fetches with
  | nil => intro made; simp [pollFrom]
  | cons s rest ih =>
    intro made
    by_cases h1 : isTerminal s = true
    · rw [pollFrom_cons_terminal rest made h1]
      exact ⟨rest, rfl⟩
    · have h1' : isTerminal s = false := by simpa using h1
      by_cases h2 : maxA ≠ 0 ∧ maxA ≤ made + 1
      · rw [pollFrom_cons_exceeded rest made h1' h2]
        exact ⟨rest, rfl⟩
      · rw [pollFrom_cons_continue rest made h1' h2]
        obtain ⟨t, ht⟩ := ih (made + 1)
        exact ⟨t, by rw [List.cons_append, ht]⟩

/-! ## Claim theorems: pagination and polling -/

/-- A concrete well-formed two-page service response used as witness data. -/
def pagesA : List Page :=
  [{ orders := ["o1", "o2"], next := some "page2" }, { orders := ["o3"], next := none }]

/-- C1: For the list operation, a limit of 0 or an unset limit yields all
available order records, and a positive limit yields exactly
min(limit, total) records, preserving the original ordering of the
service response. -/
theorem ordersList_limit_spec (ps : List Page) (h : chained ps = true) :
    ordersList none ps = allOrders ps ∧
    ordersList (some 0) ps = allOrders ps ∧
    ∀ n : Nat, 0 < n →
      ordersList (some n) ps = (allOrders ps).take n ∧
      (ordersList (some n) ps).length = min n (allOrders ps).length := by
  have hrun := listRun_eq_of_chained ps h
  refine ⟨by simp [ordersList, hrun], by simp [ordersList, hrun], ?_⟩
  intro n hn
  have he : ordersList (some n) ps = listRunBounded n ps := by
    cases n with
    | zero => exact absurd hn (lt_irrefl 0)
    | succ m => rfl
  rw [he, listRunBounded_eq_take ps h n]
  exact ⟨rfl, by rw [List.length_take]⟩

/-- Witness for the limit theorem at concrete pages. -/
theorem ordersList_limit_spec_witness :
    chained pagesA = true ∧
    (ordersList none pagesA = allOrders pagesA ∧
     ordersList (some 0) pagesA = allOrders pagesA ∧
     ∀ n : Nat, 0 < n →
       ordersList (some n) pagesA = (allOrders pagesA).take n ∧
       (ordersList (some n) pagesA).length = min n (allOrders pagesA).length) :=
  ⟨by decide, ordersList_limit_spec pagesA (by decide)⟩

/-- C6: For every paginated list response sequence, the list operation
yields the concatenation of all pages' order records (the full result
set, in order), following each response's next-page link, and stops
fetching exactly when a response contains no next-page link. -/
theorem ordersList_pagination_spec (ps : List Page) (h : chained ps = true) :
    ordersList none ps = allOrders ps ∧
    (listRun ps).2 = ps.length ∧
    ∀ (p : Page) (rest : List Page), p.next = none → listRun (p :: rest) = (p.orders, 1) := by
  have hrun := listRun_eq_of_chained ps h
  refine ⟨by simp [ordersList, hrun], by rw [hrun], ?_⟩
  intro p rest hp
  exact listRun_cons_none rest hp

/-- Witness for the pagination theorem at concrete pages. -/
theorem ordersList_pagination_spec_witness :
    chained pagesA = true ∧
    (ordersList none pagesA = allOrders pagesA ∧
     (listRun pagesA).2 = pagesA.length ∧
     ∀ (p : Page) (rest : List Page), p.next = none → listRun (p :: rest) = (p.orders, 1)) :=
  ⟨by decide, ordersList_pagination_spec pagesA (by decide)⟩

/-- C2: Polling an order whose fetched state sequence is
[queued, running, success] reports exactly those three states, in that
order, to the progress sink and returns once success is observed; in
general the sequence of states reported to the sink is an initial segment
of the fetch history, with no skipped or reordered states. -/
theorem poll_reports_spec :
    poll ["queued", "running", "success"] 0 =
      (["queued", "running", "success"], PollOutcome.reached "success") ∧
    ∀ (fetches : List String) (maxA : Nat),
      List.IsPrefix (poll fetches maxA).1 fetches := by
  constructor
  · decide
  · intro fetches maxA
    exact pollFrom_reports_isPrefix maxA fetches 0

/-- C3: For every order whose state remains non-terminal, polling with
max_attempts = 1 fails with AttemptsExceededError carrying the configured
bound 1, after performing exactly one state fetch (exactly one state is
reported). -/
theorem poll_max_attempts_spec (s : String) (rest : List String) (h : isTerminal s = false) :
    poll (s :: rest) 1 = ([s], PollOutcome.attemptsExceeded 1) := by
  rw [poll, pollFrom_cons_exceeded rest 0 h ⟨one_ne_zero, le_refl 1⟩]

/-- Witness for the attempt-bound theorem on an order stuck at running. -/
theorem poll_max_attempts_spec_witness :
    isTerminal "running" = false ∧
    poll ["running", "running"] 1 = (["running"], PollOutcome.attemptsExceeded 1) :=
  ⟨by decide, poll_max_attempts_spec "running" ["running"] (by decide)⟩

/-! ## Filesystem and download lemmas -/

/-- Reading after a write: the written name has the new contents, every
other name is untouched. -/
theorem fsGet_fsPut (fs : FS) (n v m : String) :
    fsGet (fsPut fs n v) m = if n = m then some v else fsGet fs m := by
  induction fs with
  | nil => simp [fsPut, fsGet]
  | cons kv rest ih =>
    obtain ⟨k, w⟩ := kv
    by_cases hk : k = n
    · subst hk
      by_cases hm : k = m <;> simp [fsPut, fsGet, hm]
    · by_cases hm : k = m
      · have hnm : ¬n = m := fun h => hk (hm.trans h.symm)
        have hmn : ¬m = n := fun h => hk (hm.trans h)
        simp [fsPut, fsGet, hk, hm, hnm, hmn]
      · simp [fsPut, fsGet, hk, hm, ih]

/-- Unfolding step: an already-present file with overwrite off is skipped. -/
theorem runDownloads_cons_skip {net : String → String} {ow : Bool} {r : OrderResult}
    (rs : List OrderResult) (fs : FS)
    (h : (fsGet fs r.name).isSome = true ∧ ow = false) :
    runDownloads net ow (r :: rs) fs =
      (r.name :: (runDownloads net ow rs fs).1,
       (runDownloads net ow rs fs).2.1,
       (runDownloads net ow rs fs).2.2) := by
  simp only [runDownloads]
  rw [if_pos h]

/-- Unfolding step: otherwise the artifact is fetched and written. -/
theorem runDownloads_cons_fetch {net : String → String} {ow : Bool} {r : OrderResult}
    (rs : List OrderResult) (fs : FS)
    (h : ¬((fsGet fs r.name).isSome = true ∧ ow = false)) :
    runDownloads net ow (r :: rs) fs =
      (r.name :: (runDownloads net ow rs (fsPut fs r.name (net r.location))).1,
       (runDownloads net ow rs (fsPut fs r.name (net r.location))).2.1,
       r.location :: (runDownloads net ow rs (fsPut fs r.name (net r.location))).2.2) := by
  simp only [runDownloads]
  rw [if_neg h]

/-- Path component of the skip step. -/
theorem runDownloads_skip_paths {net : String → String} {ow : Bool} {r : OrderResult}
    (rs : List OrderResult) (fs : FS)
    (h : (fsGet fs r.name).isSome = true ∧ ow = false) :
    (runDownloads net ow (r :: rs) fs).1 = r.name :: (runDownloads net ow rs fs).1 := by
  rw [runDownloads_cons_skip rs fs h]

/-- Filesystem component of the skip step. -/
theorem runDownloads_skip_fs {net : String → String} {ow : Bool} {r : OrderResult}
    (rs : List OrderResult) (fs : FS)
    (h : (fsGet fs r.name).isSome = true ∧ ow = false) :
    (runDownloads net ow (r :: rs) fs).2.1 = (runDownloads net ow rs fs).2.1 := by
  rw [runDownloads_cons_skip rs fs h]

/-- Fetch-list component of the skip step. -/
theorem runDownloads_skip_fetches {net : String → String} {ow : Bool} {r : OrderResult}
    (rs : List OrderResult) (fs : FS)
    (h : (fsGet fs r.name).isSome = true ∧ ow = false) :
    (runDownloads net ow (r :: rs) fs).2.2 = (runDownloads net ow rs fs).2.2 := by
  rw [runDownloads_cons_skip rs fs h]

/-- Path component of the fetch step. -/
theorem runDownloads_fetch_paths {net : String → String} {ow : Bool} {r : OrderResult}
    (rs : List OrderResult) (fs : FS)
    (h : ¬((fsGet fs r.name).isSome = true ∧ ow = false)) :
    (runDownloads net ow (r :: rs) fs).1 =
      r.name :: (runDownloads net ow rs (fsPut fs r.name (net r.location))).1 := by
  rw [runDownloads_cons_fetch rs fs h]

/-- Filesystem component of the fetch step. -/
theorem runDownloads_fetch_fs {net : String → String} {ow : Bool} {r : OrderResult}
    (rs : List OrderResult) (fs : FS)
    (h : ¬((fsGet fs r.name).isSome = true ∧ ow = false)) :
    (runDownloads net ow (r :: rs) fs).2.1 =
      (runDownloads net ow rs (fsPut fs r.name (net r.location))).2.1 := by
  rw [runDownloads_cons_fetch rs fs h]

/-- Fetch-list component of the fetch step. -/
theorem runDownloads_fetch_fetches {net : String → String} {ow : Bool} {r : OrderResult}
    (rs : List OrderResult) (fs : FS)
    (h : ¬((fsGet fs r.name).isSome = true ∧ ow = false)) :
    (runDownloads net ow (r :: rs) fs).2.2 =
      r.location :: (runDownloads net ow rs (fsPut fs r.name (net r.location))).2.2 := by
  rw [runDownloads_cons_fetch rs fs h]

/-- The local paths produced by the per-artifact loop are exactly the
server-declared names of the result descriptors, in order. -/
theorem runDownloads_paths (net : String → String) (ow : Bool) :
    ∀ (rs : List OrderResult) (fs : FS),
      (runDownloads net ow rs fs).1 = rs.map OrderResult.name := by
  intro rs
  induction rs with
  | nil => intro fs; simp [runDownloads]
  | cons r rs ih =>
    intro fs
    by_cases hc : (fsGet fs r.name).isSome = true ∧ ow = false
    · rw [runDownloads_skip_paths rs fs hc, ih, List.map_cons]
    · rw [runDownloads_fetch_paths rs fs hc, ih, List.map_cons]

/-- With overwrite off, a file that exists before the loop keeps its
contents byte for byte. -/
theorem runDownloads_preserves_existing (net : String → String) :
    ∀ (rs : List OrderResult) (fs : FS) (n : String),
      (fsGet fs n).isSome = true →
      fsGet (runDownloads net false rs fs).2.1 n = fsGet fs n := by
  intro rs
  induction rs with
  | nil => intro fs n _; simp [runDownloads]
  | cons r rs ih =>
    intro fs n h
    by_cases hc : (fsGet fs r.name).isSome = true
    · rw [runDownloads_skip_fs rs fs ⟨hc, rfl⟩]
      exact ih fs n h
    · rw [runDownloads_fetch_fs rs fs (by simp [hc])]
      have hne : ¬r.name = n := by
        intro he
        rw [he] at hc
        exact hc h
      have h2 : fsGet (fsPut fs r.name (net r.location)) n = fsGet fs n := by
        rw [fsGet_fsPut, if_neg hne]
      exact (ih (fsPut fs r.name (net r.location)) n (by rw [h2]; exact h)).trans h2

/-- Names not among the remaining descriptors are never written. -/
theorem runDownloads_preserves_other (net : String → String) (ow : Bool) :
    ∀ (rs : List OrderResult) (fs : FS) (n : String),
      n ∉ rs.map OrderResult.name →
      fsGet (runDownloads net ow rs fs).2.1 n = fsGet fs n := by
  intro rs
  induction rs with
  | nil => intro fs n _; simp [runDownloads]
  | cons r rs ih =>
    intro fs n hn
    rw [List.map_cons, List.mem_cons] at hn
    push_neg at hn
    obtain ⟨hne, hn'⟩ := hn
    by_cases hc : (fsGet fs r.name).isSome = true ∧ ow = false
    · rw [runDownloads_skip_fs rs fs hc]
      exact ih fs n hn'
    · rw [runDownloads_fetch_fs rs fs hc]
      rw [ih _ n hn', fsGet_fsPut, if_neg (fun he => hne he.symm)]

/-- With overwrite off, the artifact URLs requested are exactly the
locations of the descriptors whose names are not already present. -/
theorem runDownloads_fetches_skip (net : String → String) :
    ∀ (rs : List OrderResult) (fs : FS),
      (rs.map OrderResult.name).Nodup →
      (runDownloads net false rs fs).2.2 =
        (rs.filter (fun r => (fsGet fs r.name).isNone)).map OrderResult.location := by
  intro rs
  induction rs with
  | nil => intro fs _; simp [runDownloads]
  | cons r rs ih =>
    intro fs hn
    rw [List.map_cons, List.nodup_cons] at hn
    obtain ⟨hnotin, hn'⟩ := hn
    by_cases hc : (fsGet fs r.name).isSome = true
    · rw [runDownloads_skip_fetches rs fs ⟨hc, rfl⟩]
      obtain ⟨v, hv⟩ := Option.isSome_iff_exists.mp hc
      rw [ih fs hn', List.filter_cons]
      simp [hv]
    · have hnone : fsGet fs r.name = none := Option.not_isSome_iff_eq_none.mp hc
      rw [runDownloads_fetch_fetches rs fs (by simp [hc])]
      rw [ih (fsPut fs r.name (net r.location)) hn']
      have hcong :
          rs.filter (fun x => (fsGet (fsPut fs r.name (net r.location)) x.name).isNone)
            = rs.filter (fun x => (fsGet fs x.name).isNone) := by
        apply List.filter_congr
        intro x hx
        have hne : ¬r.name = x.name := by
          intro he
          apply hnotin
          rw [he]
          exact List.mem_map_of_mem OrderResult.name hx
        rw [fsGet_fsPut, if_neg hne]
      rw [hcong, List.filter_cons]
      simp [hnone]

/-- With overwrite off, a descriptor whose name is not yet present is
downloaded: afterwards the file holds the fetched body. -/
theorem runDownloads_writes_new (net : String → String) :
    ∀ (rs : List OrderResult) (fs : FS) (r : OrderResult),
      (rs.map OrderResult.name).Nodup → r ∈ rs → fsGet fs r.name = none →
      fsGet (runDownloads net false rs fs).2.1 r.name = some (net r.location) := by
  intro rs
  induction rs with
  | nil => intro fs r _ hr _; exact absurd hr (List.not_mem_nil r)
  | cons r0 rs ih =>
    intro fs r hn hr hnone
    rw [List.map_cons, List.nodup_cons] at hn
    obtain ⟨hnotin, hn'⟩ := hn
    rcases List.mem_cons.mp hr with he | hr'
    · subst he
      rw [runDownloads_fetch_fs rs fs (by simp [hnone])]
      have hput : fsGet (fsPut fs r.name (net r.location)) r.name = some (net r.location) := by
        rw [fsGet_fsPut, if_pos rfl]
      have hkeep := runDownloads_preserves_existing net rs
        (fsPut fs r.name (net r.location)) r.name (by rw [hput]; rfl)
      rw [hkeep, hput]
    · have hne : ¬r0.name = r.name := by
        intro he
        apply hnotin
        rw [he]
        exact List.mem_map_of_mem OrderResult.name hr'
      by_cases hc : (fsGet fs r0.name).isSome = true
      · rw [runDownloads_skip_fs rs fs ⟨hc, rfl⟩]
        exact ih fs r hn' hr' hnone
      · rw [runDownloads_fetch_fs rs fs (by simp [hc])]
        apply ih _ r hn' hr'
        rw [fsGet_fsPut, if_neg hne]
        exact hnone

/-- With overwrite on, every artifact URL is requested, in order. -/
theorem runDownloads_fetches_all (net : String → String) :
    ∀ (rs : List OrderResult) (fs : FS),
      (runDownloads net true rs fs).2.2 = rs.map OrderResult.location := by
  intro rs
  induction rs with
  | nil => intro fs; simp [runDownloads]
  | cons r rs ih =>
    intro fs
    rw [runDownloads_fetch_fetches rs fs (by simp), ih, List.map_cons]

/-- With overwrite on, every descriptor's file ends up holding the body
fetched from its location. -/
theorem runDownloads_overwrites (net : String → String) :
    ∀ (rs : List OrderResult) (fs : FS) (r : OrderResult),
      (rs.map OrderResult.name).Nodup → r ∈ rs →
      fsGet (runDownloads net true rs fs).2.1 r.name = some (net r.location) := by
  intro rs
  induction rs with
  | nil => intro fs r _ hr; exact absurd hr (List.not_mem_nil r)
  | cons r0 rs ih =>
    intro fs r hn hr
    rw [List.map_cons, List.nodup_cons] at hn
    obtain ⟨hnotin, hn'⟩ := hn
    rcases List.mem_cons.mp hr with he | hr'
    · subst he
      rw [runDownloads_fetch_fs rs fs (by simp)]
      rw [runDownloads_preserves_other net true rs _ r.name hnotin]
      rw [fsGet_fsPut, if_pos rfl]
    · rw [runDownloads_fetch_fs rs fs (by simp)]
      exact ih _ r hn' hr'

/-! ## Claim theorems: download and get -/

/-- A concrete body fetcher used as witness data. -/
def netA : String → String := fun u => String.append "body-" u

/-- A concrete completed order with two result artifacts. -/
def orderA : Order :=
  { oid := "oid", state := "success",
    results := [{ location := "url1", name := "m1.json" },
                { location := "url2", name := "m2.json" }] }

/-- A concrete destination directory already holding one of the files. -/
def fsA : FS := [("m1.json", "old-contents")]

/-- A concrete order still in a running state. -/
def orderRunning : Order :=
  { oid := "oid", state := "running",
    results := [{ location := "url1", name := "m1.json" }] }

/-- C4: For every order whose state is non-terminal or terminal-failure,
the download operation fails immediately with OrderNotReadyError naming
the order's actual state, performs no request to any artifact URL, and
leaves the destination untouched. -/
theorem download_not_ready_spec (net : String → String) (ow : Bool) (o : Order) (fs : FS)
    (h : downloadableState o.state = false) :
    downloadOrder net ow o fs = (DlResult.orderNotReady o.state, fs, []) := by
  simp only [downloadOrder]
  rw [if_neg (by simp [h])]

/-- Witness for the not-ready theorem on a running order. -/
theorem download_not_ready_spec_witness :
    downloadableState orderRunning.state = false ∧
    downloadOrder netA false orderRunning [] =
      (DlResult.orderNotReady "running", [], []) :=
  ⟨by decide, download_not_ready_spec netA false orderRunning [] (by decide)⟩

/-- C5: Downloading with overwrite off leaves every already-existing
destination file byte-for-byte unchanged and requests only the
not-yet-present artifacts, while every artifact (skipped or fetched) is
counted complete in the returned path list and the remaining artifacts
are written; with overwrite on, every artifact is re-fetched and existing
files' contents are replaced by the fetched bodies. -/
theorem download_overwrite_spec (net : String → String) (o : Order) (fs : FS)
    (hs : downloadableState o.state = true)
    (hn : (o.results.map OrderResult.name).Nodup) :
    (∀ n, (fsGet fs n).isSome = true →
        fsGet (downloadOrder net false o fs).2.1 n = fsGet fs n) ∧
    ((downloadOrder net false o fs).2.2 =
        (o.results.filter (fun r => (fsGet fs r.name).isNone)).map OrderResult.location) ∧
    ((downloadOrder net false o fs).1 = DlResult.ok (o.results.map OrderResult.name)) ∧
    (∀ r ∈ o.results, fsGet fs r.name = none →
        fsGet (downloadOrder net false o fs).2.1 r.name = some (net r.location)) ∧
    ((downloadOrder net true o fs).2.2 = o.results.map OrderResult.location) ∧
    (∀ r ∈ o.results,
        fsGet (downloadOrder net true o fs).2.1 r.name = some (net r.location)) := by
  have hd : ∀ ow : Bool, downloadOrder net ow o fs =
      (DlResult.ok (runDownloads net ow o.results fs).1,
       (runDownloads net ow o.results fs).2.1,
       (runDownloads net ow o.results fs).2.2) := by
    intro ow
    simp only [downloadOrder]
    rw [if_pos hs]
  refine ⟨?_, ?_, ?_, ?_, ?_, ?_⟩
  · intro n h
    rw [hd false]
    exact runDownloads_preserves_existing net o.results fs n h
  · rw [hd false]
    exact runDownloads_fetches_skip net o.results fs hn
  · rw [hd false]
    exact congrArg DlResult.ok (runDownloads_paths net false o.results fs)
  · intro r hr hnone
    rw [hd false]
    exact runDownloads_writes_new net o.results fs r hn hr hnone
  · rw [hd true]
    exact runDownloads_fetches_all net o.results fs
  · intro r hr
    rw [hd true]
    exact runDownloads_overwrites net o.results fs r hn hr

/-- Witness for the overwrite theorem: two artifacts, one file existing. -/
theorem download_overwrite_spec_witness :
    downloadableState orderA.state = true ∧
    (orderA.results.map OrderResult.name).Nodup ∧
    ((∀ n, (fsGet fsA n).isSome = true →
        fsGet (downloadOrder netA false orderA fsA).2.1 n = fsGet fsA n) ∧
     ((downloadOrder netA false orderA fsA).2.2 =
        (orderA.results.filter (fun r => (fsGet fsA r.name).isNone)).map OrderResult.location) ∧
     ((downloadOrder netA false orderA fsA).1 =
        DlResult.ok (orderA.results.map OrderResult.name)) ∧
     (∀ r ∈ orderA.results, fsGet fsA r.name = none →
        fsGet (downloadOrder netA false orderA fsA).2.1 r.name = some (netA r.location)) ∧
     ((downloadOrder netA true orderA fsA).2.2 = orderA.results.map OrderResult.location) ∧
     (∀ r ∈ orderA.results,
        fsGet (downloadOrder netA true orderA fsA).2.1 r.name = some (netA r.location))) :=
  ⟨by decide, by decide, download_overwrite_spec netA orderA fsA (by decide) (by decide)⟩

/-- C7: For every downloaded artifact the local output filename is the
server-declared name in the result descriptor, never the request URL:
the produced path list is exactly the declared names, and it is invariant
under changing the artifact URLs and bodies while keeping the names. -/
theorem download_filename_spec (net : String → String) (ow : Bool) (o : Order) (fs : FS)
    (hs : downloadableState o.state = true) :
    (downloadOrder net ow o fs).1 = DlResult.ok (o.results.map OrderResult.name) ∧
    ∀ (net2 : String → String) (o2 : Order) (fs2 : FS),
      downloadableState o2.state = true →
      o2.results.map OrderResult.name = o.results.map OrderResult.name →
      (downloadOrder net2 ow o2 fs2).1 = (downloadOrder net ow o fs).1 := by
  have key : ∀ (net0 : String → String) (o0 : Order) (fs0 : FS),
      downloadableState o0.state = true →
      (downloadOrder net0 ow o0 fs0).1 = DlResult.ok (o0.results.map OrderResult.name) := by
    intro net0 o0 fs0 h0
    have hd : downloadOrder net0 ow o0 fs0 =
        (DlResult.ok (runDownloads net0 ow o0.results fs0).1,
         (runDownloads net0 ow o0.results fs0).2.1,
         (runDownloads net0 ow o0.results fs0).2.2) := by
      simp only [downloadOrder]
      rw [if_pos h0]
    rw [hd]
    exact congrArg DlResult.ok (runDownloads_paths net0 ow o0.results fs0)
  refine ⟨key net o fs hs, ?_⟩
  intro net2 o2 fs2 h2 hnames
  rw [key net2 o2 fs2 h2, key net o fs hs, hnames]

/-- Witness for the filename theorem at the concrete order. -/
theorem download_filename_spec_witness :
    downloadableState orderA.state = true ∧
    ((downloadOrder netA false orderA []).1 =
        DlResult.ok (orderA.results.map OrderResult.name) ∧
     ∀ (net2 : String → String) (o2 : Order) (fs2 : FS),
       downloadableState o2.state = true →
       o2.results.map OrderResult.name = orderA.results.map OrderResult.name →
       (downloadOrder net2 false o2 fs2).1 = (downloadOrder netA false orderA []).1) :=
  ⟨by decide, download_filename_spec netA false orderA [] (by decide)⟩

/-- C8: The get operation fails with NotFoundError, surfacing the
service's error body, exactly when the service returns 404; otherwise it
returns the full order record unmodified. -/
theorem getOrder_spec (resp : HttpResponse) :
    (getOrder resp = GetResult.notFound resp.body ↔ resp.status = 404) ∧
    (getOrder resp = GetResult.ok resp.body ↔ resp.status ≠ 404) := by
  by_cases h : resp.status = 404
  · constructor
    · simp [getOrder, h]
    · simp [getOrder, h]
  · constructor
    · simp [getOrder, h]
    · simp [getOrder, h]

/-- Witness for the get theorem at a 404 response. -/
theorem getOrder_spec_witness :
    (getOrder { status := 404, body := "Error message" } =
        GetResult.notFound "Error message" ↔ (404 : Nat) = 404) ∧
    (getOrder { status := 404, body := "Error message" } =
        GetResult.ok "Error message" ↔ (404 : Nat) ≠ 404) :=
  getOrder_spec { status := 404, body := "Error message" }

/-! ## Claim theorems: progress reporting -/

/-- A concrete opened state bar used as witness data. -/
def sbA : StateBar :=
  { state := "queued", order_id := "oid1",
    bar := { desc := "order oid1", pfix0 := "state", pfix1 := "queued" } }

/-- C9: For every StateBar, update with a falsy state argument (None or
the empty string) leaves the stored state and the displayed state postfix
slot unchanged, and a falsy order_id leaves the stored order_id and the
displayed description unchanged; a truthy state replaces the stored state
and updates the displayed postfix slot. -/
theorem stateBar_update_spec (sb : StateBar) (state order_id : Option String) :
    (truthyStr state = false →
        (sb.update state order_id).state = sb.state ∧
        (sb.update state order_id).bar.pfix1 = sb.bar.pfix1) ∧
    (truthyStr order_id = false →
        (sb.update state order_id).order_id = sb.order_id ∧
        (sb.update state order_id).bar.desc = sb.bar.desc) ∧
    (∀ s : String, state = some s → s ≠ "" →
        (sb.update state order_id).state = s ∧
        (sb.update state order_id).bar.pfix1 = s) := by
  by_cases h1 : truthyStr state = true
  · by_cases h2 : truthyStr order_id = true
    · refine ⟨?_, ?_, ?_⟩
      · intro hf
        rw [hf] at h1
        exact absurd h1 Bool.false_ne_true
      · intro hf
        rw [hf] at h2
        exact absurd h2 Bool.false_ne_true
      · intro s hs hne
        subst hs
        constructor <;> simp [StateBar.update, h1, h2]
    · refine ⟨?_, ?_, ?_⟩
      · intro hf
        rw [hf] at h1
        exact absurd h1 Bool.false_ne_true
      · intro _
        constructor <;> simp [StateBar.update, h1, h2]
      · intro s hs hne
        subst hs
        constructor <;> simp [StateBar.update, h1, h2]
  · have h1' : truthyStr state = false := by simpa using h1
    by_cases h2 : truthyStr order_id = true
    · refine ⟨?_, ?_, ?_⟩
      · intro _
        constructor <;> simp [StateBar.update, h1', h2]
      · intro hf
        rw [hf] at h2
        exact absurd h2 Bool.false_ne_true
      · intro s hs hne
        subst hs
        exfalso
        simp [truthyStr, hne] at h1'
    · refine ⟨?_, ?_, ?_⟩
      · intro _
        constructor <;> simp [StateBar.update, h1', h2]
      · intro _
        constructor <;> simp [StateBar.update, h1', h2]
      · intro s hs hne
        subst hs
        exfalso
        simp [truthyStr, hne] at h1'

/-- Witness for the StateBar update theorem on a concrete bar. -/
theorem stateBar_update_spec_witness :
    (truthyStr (some "running") = false →
        (sbA.update (some "running") none).state = sbA.state ∧
        (sbA.update (some "running") none).bar.pfix1 = sbA.bar.pfix1) ∧
    (truthyStr none = false →
        (sbA.update (some "running") none).order_id = sbA.order_id ∧
        (sbA.update (some "running") none).bar.desc = sbA.bar.desc) ∧
    (∀ s : String, some "running" = some s → s ≠ "" →
        (sbA.update (some "running") none).state = s ∧
        (sbA.update (some "running") none).bar.pfix1 = s) :=
  stateBar_update_spec sbA (some "running") none

/-- C10: For every FileDownloadBar constructed with unit equal to None or
0, the stored unit divisor equals 1024*1024 (reporting scaled to
megabytes); any other unit value is stored as given. -/
theorem fileDownloadBar_unit_spec (filename : String) (size : Int) :
    (FileDownloadBar.make filename size none).unit = 1024 * 1024 ∧
    (FileDownloadBar.make filename size (some 0)).unit = 1024 * 1024 ∧
    ∀ u : Int, u ≠ 0 → (FileDownloadBar.make filename size (some u)).unit = u := by
  refine ⟨rfl, by simp [FileDownloadBar.make, pyOrInt], ?_⟩
  intro u hu
  simp [FileDownloadBar.make, pyOrInt, hu]

/-- Witness for the FileDownloadBar unit theorem at concrete arguments. -/
theorem fileDownloadBar_unit_spec_witness :
    (FileDownloadBar.make "img.tif" 100000 none).unit = 1024 * 1024 ∧
    (FileDownloadBar.make "img.tif" 100000 (some 0)).unit = 1024 * 1024 ∧
    ∀ u : Int, u ≠ 0 → (FileDownloadBar.make "img.tif" 100000 (some u)).unit = u :=
  fileDownloadBar_unit_spec "img.tif" 100000

end Planet
